import Mathlib

/-!
Verification of the UUID allocation-and-persistence core of the
`unique-uuid-derive` crate (`src/unique-uuid-derive/src/lib.rs`).

The durable store is modelled at byte level (`List Nat`, one entry per byte),
the raw text as `List Char`, and the registry (`FileStructure`) as association
lists mirroring the two `HashMap<String, Uuid>` fields.  The random UUID v4
generator is an external primitive, so `get_uuid_from_tag` receives the fresh
UUID as an explicit oracle argument.
-/

/-- The two namespaces of the registry (`enum UType`, lib.rs:148-151). -/
inductive UType
  | UniqueTags
  | UniqueTypeTags
deriving DecidableEq

/-- The registry schema (`struct FileStructure`, lib.rs:153-161): two tables of
string key to UUID-string pairs.  The Rust `HashMap`s are modelled as
association lists; the list order models the (unspecified) iteration order of
the map. -/
structure FileStructure where
  unique_tags : List (String × String)
  unique_type_tags : List (String × String)
deriving DecidableEq

/-- The table selected by the namespace (`target`, lib.rs:184-187). -/
def FileStructure.table : FileStructure → UType → List (String × String)
  | fs, .UniqueTags => fs.unique_tags
  | fs, .UniqueTypeTags => fs.unique_type_tags

/-- `target.insert(tag.to_string(), uuid)` (lib.rs:192): a new binding is added
to the table selected by the namespace.  It is only ever called when the key is
absent, so appending models the map insertion. -/
def FileStructure.insertNew : FileStructure → UType → String → String → FileStructure
  | fs, .UniqueTags, k, u => { fs with unique_tags := fs.unique_tags ++ [(k, u)] }
  | fs, .UniqueTypeTags, k, u => { fs with unique_type_tags := fs.unique_type_tags ++ [(k, u)] }

/-- First-match association-list lookup, modelling `HashMap::get` (lib.rs:188)
on a map whose bindings are listed in iteration order (keys are distinct). -/
def lookupKey (k : String) : List (String × String) → Option String
  | [] => none
  | (a, b) :: rest => if a = k then some b else lookupKey k rest

/-- Hexadecimal digit test, as accepted by `uuid::Uuid`'s string parser. -/
def isHexChar (c : Char) : Bool :=
  ('0' ≤ c && c ≤ '9') || ('a' ≤ c && c ≤ 'f') || ('A' ≤ c && c ≤ 'F')

/-- Canonical hyphenated UUID text (8-4-4-4-12 hex groups), the form produced
by `uuid::Uuid::to_string` and required by its deserializer. -/
def isValidUuid (s : String) : Bool :=
  s.data.length == 36 &&
    (List.range 36).all (fun i =>
      if i == 8 || i == 13 || i == 18 || i == 23 then s.data.getD i ' ' == '-'
      else isHexChar (s.data.getD i ' '))

/-- UTF-8 encoding of one scalar value, as Rust's `String`/`str` store text. -/
def utf8EncodeChar (c : Char) : List Nat :=
  let n := c.toNat
  if n < 0x80 then [n]
  else if n < 0x800 then [0xC0 + n / 64, 0x80 + n % 64]
  else if n < 0x10000 then [0xE0 + n / 4096, 0x80 + n / 64 % 64, 0x80 + n % 64]
  else [0xF0 + n / 262144, 0x80 + n / 4096 % 64, 0x80 + n / 64 % 64, 0x80 + n % 64]

/-- UTF-8 encoding of a text, byte by byte. -/
def utf8Encode (s : List Char) : List Nat :=
  s.flatMap utf8EncodeChar

/-- Strict UTF-8 decoding of a byte sequence, as `read_to_string` (lib.rs:179)
performs through Rust's `String::from_utf8`: rejects truncated sequences,
stray continuation bytes, overlong forms, surrogates and values above
`0x10FFFF`. -/
def utf8DecodeF : Nat → List Nat → Option (List Char)
  | _, [] => some []
  | 0, _ :: _ => none
  | fuel + 1, b :: bs =>
    if b < 0x80 then
      (utf8DecodeF fuel bs).map (fun cs => Char.ofNat b :: cs)
    else if b < 0xC2 then
      none
    else if b < 0xE0 then
      let b2 := bs.getD 0 0
      if 1 ≤ bs.length ∧ 0x80 ≤ b2 ∧ b2 < 0xC0 then
        (utf8DecodeF fuel (bs.drop 1)).map
          (fun cs => Char.ofNat ((b - 0xC0) * 64 + (b2 - 0x80)) :: cs)
      else none
    else if b < 0xF0 then
      let b2 := bs.getD 0 0
      let b3 := bs.getD 1 0
      if 2 ≤ bs.length ∧ (0x80 ≤ b2 ∧ b2 < 0xC0) ∧ (0x80 ≤ b3 ∧ b3 < 0xC0)
          ∧ (b = 0xE0 → 0xA0 ≤ b2) ∧ (b = 0xED → b2 < 0xA0) then
        (utf8DecodeF fuel (bs.drop 2)).map (fun cs =>
          Char.ofNat ((b - 0xE0) * 4096 + (b2 - 0x80) * 64 + (b3 - 0x80)) :: cs)
      else none
    else if b < 0xF5 then
      let b2 := bs.getD 0 0
      let b3 := bs.getD 1 0
      let b4 := bs.getD 2 0
      if 3 ≤ bs.length ∧ (0x80 ≤ b2 ∧ b2 < 0xC0) ∧ (0x80 ≤ b3 ∧ b3 < 0xC0)
          ∧ (0x80 ≤ b4 ∧ b4 < 0xC0) ∧ (b = 0xF0 → 0x90 ≤ b2) ∧ (b = 0xF4 → b2 < 0x90) then
        (utf8DecodeF fuel (bs.drop 3)).map (fun cs =>
          Char.ofNat ((b - 0xF0) * 262144 + (b2 - 0x80) * 4096
            + (b3 - 0x80) * 64 + (b4 - 0x80)) :: cs)
      else none
    else none

/-- `utf8Decode` proper: instantiates the fuel with the input length, which
always suffices since every step consumes at least one byte. -/
def utf8Decode (l : List Nat) : Option (List Char) :=
  utf8DecodeF l.length l

/-- Lower-case hexadecimal digit for `n < 16`. -/
def hexDigitChar (n : Nat) : Char :=
  if n < 10 then Char.ofNat (48 + n) else Char.ofNat (87 + n)

/-- Four-digit hexadecimal rendering of `n < 0x10000`, for `\uXXXX` escapes. -/
def hex4 (n : Nat) : List Char :=
  [hexDigitChar (n / 4096 % 16), hexDigitChar (n / 256 % 16),
   hexDigitChar (n / 16 % 16), hexDigitChar (n % 16)]

/-- Value of one hexadecimal digit character. -/
def parseHexDigit (c : Char) : Option Nat :=
  if '0' ≤ c && c ≤ '9' then some (c.toNat - 48)
  else if 'a' ≤ c && c ≤ 'f' then some (c.toNat - 87)
  else if 'A' ≤ c && c ≤ 'F' then some (c.toNat - 55)
  else none

/-- TOML basic-string escaping of one character: quotes and backslashes are
backslash-escaped, control characters become `\uXXXX`, everything else is
emitted verbatim. -/
def escapeChar (c : Char) : List Char :=
  if c = '"' then ['\\', '"']
  else if c = '\\' then ['\\', '\\']
  else if c.toNat < 0x20 || c.toNat == 0x7F then '\\' :: 'u' :: hex4 c.toNat
  else [c]

/-- Escaped body of a TOML basic string. -/
def escapeBody (s : List Char) : List Char :=
  s.flatMap escapeChar

/-- Characters allowed in a TOML bare key: ASCII letters, digits, `_`, `-`. -/
def isBareChar (c : Char) : Bool :=
  c.isAlphanum || c == '_' || c == '-'

/-- A key can be written bare iff it is nonempty and all-bare characters. -/
def bareKeyOk (s : List Char) : Bool :=
  !s.isEmpty && s.all isBareChar

/-- Serialized form of a table key: bare when possible, quoted otherwise. -/
def encodeKey (k : List Char) : List Char :=
  if bareKeyOk k then k else '"' :: (escapeBody k ++ ['"'])

/-- One serialized table entry, `key = "uuid"`, without the line break. -/
def entryLine (k v : String) : List Char :=
  encodeKey k.data ++ ' ' :: '=' :: ' ' :: '"' :: (escapeBody v.data ++ ['"'])

/-- Modelled from the spec: `encode(Registry) -> RawText` (§4.2), the external
`toml::to_string` of a `FileStructure` (lib.rs:193) — the two table headers in
field order, each followed by its entries in map-iteration order. -/
def encodeLines (fs : FileStructure) : List (List Char) :=
  ("[unique_tags]".data :: fs.unique_tags.map (fun p => entryLine p.1 p.2))
    ++ ("[unique_type_tags]".data :: fs.unique_type_tags.map (fun p => entryLine p.1 p.2))

/-- Joins lines, terminating each with a newline. -/
def joinLines (ls : List (List Char)) : List Char :=
  ls.flatMap (fun l => l ++ ['\n'])

/-- The serialized registry text (`toml::to_string`, lib.rs:193). -/
def encode (fs : FileStructure) : List Char :=
  joinLines (encodeLines fs)

/-- Splits a text into lines at `'\n'`. -/
def splitLines : List Char → List (List Char)
  | [] => [[]]
  | c :: rest =>
    match splitLines rest with
    | [] => [[c]]
    | l :: ls => if c = '\n' then [] :: l :: ls else (c :: l) :: ls

/-- Strips leading spaces and tabs. -/
def dropSpaces (l : List Char) : List Char :=
  l.dropWhile (fun c => c == ' ' || c == '\t')

/-- Parses the remainder of a TOML basic string after its opening quote;
returns the unescaped content and the input following the closing quote. -/
def parseBasicStringF : Nat → List Char → Option (List Char × List Char)
  | _, [] => none
  | 0, _ :: _ => none
  | fuel + 1, c :: rest =>
    if c = '"' then some ([], rest)
    else if c = '\\' then
      if rest.length = 0 then none
      else
        let e := rest.getD 0 'x'
        let rest2 := rest.drop 1
        if e = 'u' then
          if 4 ≤ rest2.length then
            match parseHexDigit (rest2.getD 0 'x'), parseHexDigit (rest2.getD 1 'x'),
                parseHexDigit (rest2.getD 2 'x'), parseHexDigit (rest2.getD 3 'x') with
            | some d1, some d2, some d3, some d4 =>
              let n := d1 * 4096 + d2 * 256 + d3 * 16 + d4
              if n < 0xD800 ∨ 0xDFFF < n then
                (parseBasicStringF fuel (rest2.drop 4)).map (fun r => (Char.ofNat n :: r.1, r.2))
              else none
            | _, _, _, _ => none
          else none
        else if e = '"' then (parseBasicStringF fuel rest2).map (fun r => ('"' :: r.1, r.2))
        else if e = '\\' then (parseBasicStringF fuel rest2).map (fun r => ('\\' :: r.1, r.2))
        else if e = 'n' then (parseBasicStringF fuel rest2).map (fun r => ('\n' :: r.1, r.2))
        else if e = 't' then (parseBasicStringF fuel rest2).map (fun r => ('\t' :: r.1, r.2))
        else if e = 'r' then (parseBasicStringF fuel rest2).map (fun r => ('\r' :: r.1, r.2))
        else none
    else if c.toNat < 0x20 ∨ c.toNat = 0x7F then none
    else (parseBasicStringF fuel rest).map (fun r => (c :: r.1, r.2))

/-- `parseBasicString` proper: instantiates the fuel with the input length,
which always suffices since every step consumes at least one character. -/
def parseBasicString (l : List Char) : Option (List Char × List Char) :=
  parseBasicStringF l.length l

/-- After a parsed key, expects `= "<uuid>"` with optional surrounding blanks;
the value must be a valid UUID string (the `uuid::Uuid` deserializer). -/
def parseEntryRest (k : List Char) (rest : List Char) : Option (String × String) :=
  match dropSpaces rest with
  | [] => none
  | c :: rest2 =>
    if c = '=' then
      match dropSpaces rest2 with
      | [] => none
      | c2 :: rest3 =>
        if c2 = '"' then
          match parseBasicString rest3 with
          | some (v, rest4) =>
            if (dropSpaces rest4).isEmpty && isValidUuid (String.mk v) then
              some (String.mk k, String.mk v)
            else none
          | none => none
        else none
    else none

/-- Parses one `key = "uuid"` line (leading blanks already stripped); the key
is either quoted or bare. -/
def parseEntryLine (t : List Char) : Option (String × String) :=
  match t with
  | [] => none
  | c :: rest =>
    if c = '"' then
      match parseBasicString rest with
      | some (k, rest2) => parseEntryRest k rest2
      | none => none
    else
      let k := (c :: rest).takeWhile isBareChar
      if k.isEmpty then none else parseEntryRest k ((c :: rest).dropWhile isBareChar)

/-- Parses a `[name]` table-header line (leading blanks already stripped). -/
def headerOf (t : List Char) : Option String :=
  match t with
  | [] => none
  | c :: rest =>
    if c = '[' then
      match rest.dropWhile (fun d => d != ']') with
      | [] => none
      | c2 :: rest2 =>
        if c2 = ']' && (dropSpaces rest2).isEmpty then
          some (String.mk (rest.takeWhile (fun d => d != ']')))
        else none
    else none

/-- Line-by-line decoding loop: `cur` is the table the current section feeds,
`seenTags`/`seenTypes` reject a redefined section, the last two arguments
accumulate the decoded entries.  Duplicate keys within a table are rejected. -/
def decodeLines : List (List Char) → Option UType → Bool → Bool →
    List (String × String) → List (String × String) → Option FileStructure
  | [], _, _, _, tags, types => some ⟨tags, types⟩
  | l :: rest, cur, seenTags, seenTypes, tags, types =>
    match dropSpaces l with
    | [] => decodeLines rest cur seenTags seenTypes tags types
    | c :: t =>
      if c = '#' then decodeLines rest cur seenTags seenTypes tags types
      else if c = '[' then
        match headerOf (c :: t) with
        | some name =>
          if name = "unique_tags" then
            if seenTags then none
            else decodeLines rest (some .UniqueTags) true seenTypes tags types
          else if name = "unique_type_tags" then
            if seenTypes then none
            else decodeLines rest (some .UniqueTypeTags) seenTags true tags types
          else none
        | none => none
      else
        match parseEntryLine (c :: t) with
        | some (k, v) =>
          match cur with
          | some .UniqueTags =>
            if (lookupKey k tags).isSome then none
            else decodeLines rest cur seenTags seenTypes (tags ++ [(k, v)]) types
          | some .UniqueTypeTags =>
            if (lookupKey k types).isSome then none
            else decodeLines rest cur seenTags seenTypes tags (types ++ [(k, v)])
          | none => none
        | none => none

/-- Modelled from the spec: `decode(RawText) -> Registry` (§4.2), the external
`toml::from_str::<FileStructure>` (lib.rs:182) restricted to the two-namespace
schema of §6 — sections optional (absence = empty), blank and comment lines
allowed, values must be valid UUID strings; content outside this schema is
treated as malformed. -/
def decode (s : List Char) : Option FileStructure :=
  decodeLines (splitLines s) none false false [] []

/-- `static DEFAULT_TYPES_FILE_NAME` (lib.rs:57). -/
def DEFAULT_TYPES_FILE_NAME : String := "types.toml"

/-- How an allocation can abort (each is a `panic!`/`unwrap` in lib.rs):
`ReadError` models `read_to_string(..).unwrap()` failing on non-UTF-8 bytes
(lib.rs:179), `FormatError` models `toml::from_str(..).unwrap()` failing on
malformed content (lib.rs:182). -/
inductive AllocError
  | ReadError
  | FormatError
deriving DecidableEq

/-- Observable outcome of a successful allocation: the returned UUID string,
the bytes of the store file afterwards, and whether the write branch
(lib.rs:190-196) ran. -/
structure AllocOutcome where
  uuid : String
  file : List Nat
  wrote : Bool
deriving DecidableEq

/-- `file.seek(SeekFrom::Start(0))` followed by `file.write_all(new)`
(lib.rs:194-195): the new bytes overwrite the old from position 0 with no
truncation, so old bytes beyond the written length survive. -/
def rewrite_all (old new : List Nat) : List Nat :=
  new ++ old.drop new.length

/-- `get_uuid_from_tag` (lib.rs:163-198) over an explicit store state.
`store` is the byte content of `types.toml`, or `none` when the file does not
exist; `OpenOptions::new().read(true).write(true).create(true)` turns an
absent file into an empty one (lib.rs:165-175).  `freshUuid` is the oracle for
`uuid::Uuid::new_v4()` (lib.rs:191). -/
def get_uuid_from_tag (tag : String) (ty : UType) (freshUuid : String)
    (store : Option (List Nat)) : Except AllocError AllocOutcome :=
  let bytes := store.getD []
  match utf8Decode bytes with
  | none => .error .ReadError
  | some contents =>
    match decode contents with
    | none => .error .FormatError
    | some file_structure =>
      match lookupKey tag (file_structure.table ty) with
      | some uuid => .ok ⟨uuid, bytes, false⟩
      | none =>
        let fs' := file_structure.insertNew ty tag freshUuid
        .ok ⟨freshUuid, rewrite_all bytes (utf8Encode (encode fs')), true⟩

/-- The key the derive macro stores for a type named `ident`:
`format!("{}::{}", "", input.ident)` (lib.rs:134) — an always-empty
module-path prefix joined to the bare name with `::`. -/
def typeKey (ident : String) : String :=
  "" ++ "::" ++ ident

/-- A well-formed table: pairwise-distinct keys (a `HashMap` invariant) and
valid UUID values (a `uuid::Uuid` invariant). -/
def wfTable (l : List (String × String)) : Prop :=
  l.Pairwise (fun a b => a.1 ≠ b.1) ∧ ∀ p ∈ l, isValidUuid p.2 = true

/-- A well-formed registry: both tables well-formed. -/
def wf (fs : FileStructure) : Prop :=
  wfTable fs.unique_tags ∧ wfTable fs.unique_type_tags

/-- Decoding of raw store bytes: UTF-8 first, then the registry schema. -/
def bytesDecode (bytes : List Nat) : Option FileStructure :=
  (utf8Decode bytes).bind decode

deriving instance DecidableEq for Except

set_option maxRecDepth 100000

/-- A concrete valid UUID string, standing in for one `Uuid::new_v4` draw. -/
def uuidA : String := "00000000-0000-4000-8000-000000000000"

/-- A second concrete valid UUID string, distinct from `uuidA`. -/
def uuidB : String := "11111111-1111-4111-8111-111111111111"

/-- A store whose content is valid TOML (two empty tables followed by a long
comment) but longer than the serialization of a one-entry registry. -/
def padStore1 : List Nat :=
  utf8Encode ("[unique_tags]\n[unique_type_tags]\n#"
    ++ String.mk (List.replicate 60 'a') ++ "\n").data

/-- Like `padStore1`, with a longer comment. -/
def padStore2 : List Nat :=
  utf8Encode ("[unique_tags]\n[unique_type_tags]\n#"
    ++ String.mk (List.replicate 70 'a') ++ "\n").data

/-- File content after a miss-path rewrite of `padStore1`: the new encoding
followed by the stale tail of the old comment. -/
def cexFile1 : List Nat := rewrite_all padStore1 (utf8Encode (encode ⟨[("k", uuidA)], []⟩))

/-- File content after a miss-path rewrite of `padStore2`. -/
def cexFile2 : List Nat := rewrite_all padStore2 (utf8Encode (encode ⟨[("x", uuidA)], []⟩))

/-- A canonical store in which the same string key "X" is bound in both
namespaces, to different UUIDs. -/
def isoStore : List Nat := utf8Encode (encode ⟨[("X", uuidA)], [("X", uuidB)]⟩)

/-- Two-entry registry. -/
def fsP : FileStructure := ⟨[("a", uuidA), ("b", uuidB)], []⟩

/-- The same two bindings as `fsP` in the opposite iteration order: equal as
maps (`HashMap` equality), different as representations. -/
def fsQ : FileStructure := ⟨[("b", uuidB), ("a", uuidA)], []⟩

/-! ### UTF-8 codec lemmas -/

theorem char_toNat_valid (c : Char) :
    c.toNat < 0xD800 ∨ (0xDFFF < c.toNat ∧ c.toNat < 0x110000) := by
  rcases c.valid with h | ⟨h1, h2⟩
  · exact Or.inl (UInt32.toNat_lt_of_lt (by decide) h)
  · exact Or.inr ⟨UInt32.lt_toNat_of_lt (by decide) h1, UInt32.toNat_lt_of_lt (by decide) h2⟩

theorem utf8Encode_append (s t : List Char) :
    utf8Encode (s ++ t) = utf8Encode s ++ utf8Encode t := by
  simp [utf8Encode]

theorem utf8DecodeF_irrel (fuel1 : Nat) : ∀ (fuel2 : Nat) (l : List Nat),
    l.length ≤ fuel1 → l.length ≤ fuel2 → utf8DecodeF fuel1 l = utf8DecodeF fuel2 l := by
  induction fuel1 with
  | zero =>
    intro fuel2 l h1 _
    have hl : l = [] := List.eq_nil_of_length_eq_zero (Nat.le_zero.mp h1)
    subst hl
    cases fuel2 <;> rfl
  | succ f1 ih =>
    intro fuel2 l h1 h2
    cases l with
    | nil => cases fuel2 <;> rfl
    | cons b bs =>
      cases fuel2 with
      | zero => simp at h2
      | succ f2 =>
        have hbs1 : bs.length ≤ f1 := by simp at h1; omega
        have hbs2 : bs.length ≤ f2 := by simp at h2; omega
        simp only [utf8DecodeF]
        rw [ih f2 bs hbs1 hbs2]
        simp only [ih f2 (bs.drop 1) (by simp; omega) (by simp; omega),
          ih f2 (bs.drop 2) (by simp; omega) (by simp; omega),
          ih f2 (bs.drop 3) (by simp; omega) (by simp; omega)]

theorem utf8Decode_encodeChar (c : Char) (rest : List Nat) :
    utf8Decode (utf8EncodeChar c ++ rest) = (utf8Decode rest).map (fun cs => c :: cs) := by
  have hv := char_toNat_valid c
  have hofNat : Char.ofNat c.toNat = c := Char.ofNat_toNat c
  unfold utf8EncodeChar utf8Decode
  by_cases h1 : c.toNat < 0x80
  · rw [if_pos h1]
    rw [List.cons_append, List.nil_append, List.length_cons, utf8DecodeF, if_pos h1, hofNat]
  · by_cases h2 : c.toNat < 0x800
    · rw [if_neg h1, if_pos h2]
      rw [List.cons_append, List.cons_append, List.nil_append, List.length_cons,
        List.length_cons, utf8DecodeF]
      rw [if_neg (by omega), if_neg (by omega), if_pos (by omega)]
      simp only [List.getD_cons_zero, List.length_cons, List.drop_succ_cons, List.drop_zero]
      rw [if_pos (by omega)]
      rw [utf8DecodeF_irrel (rest.length + 1) rest.length rest (by omega) (Nat.le_refl _)]
      have harith : (0xC0 + c.toNat / 64 - 0xC0) * 64 + (0x80 + c.toNat % 64 - 0x80) = c.toNat := by
        omega
      rw [harith, hofNat]
    · by_cases h3 : c.toNat < 0x10000
      · rw [if_neg h1, if_neg h2, if_pos h3]
        rw [List.cons_append, List.cons_append, List.cons_append, List.nil_append,
          List.length_cons, List.length_cons, List.length_cons, utf8DecodeF]
        rw [if_neg (by omega), if_neg (by omega), if_neg (by omega), if_pos (by omega)]
        simp only [List.getD_cons_zero, List.getD_cons_succ, List.length_cons,
          List.drop_succ_cons, List.drop_zero]
        rw [if_pos (by refine ⟨by omega, ⟨by omega, by omega⟩, ⟨by omega, by omega⟩, ?_, ?_⟩
              <;> omega)]
        rw [utf8DecodeF_irrel (rest.length + 1 + 1) rest.length rest (by omega) (Nat.le_refl _)]
        have harith : (0xE0 + c.toNat / 4096 - 0xE0) * 4096 + (0x80 + c.toNat / 64 % 64 - 0x80) * 64
            + (0x80 + c.toNat % 64 - 0x80) = c.toNat := by
          omega
        rw [harith, hofNat]
      · rw [if_neg h1, if_neg h2, if_neg h3]
        rw [List.cons_append, List.cons_append, List.cons_append, List.cons_append,
          List.nil_append, List.length_cons, List.length_cons, List.length_cons,
          List.length_cons, utf8DecodeF]
        rw [if_neg (by omega), if_neg (by omega), if_neg (by omega), if_neg (by omega),
          if_pos (by omega)]
        simp only [List.getD_cons_zero, List.getD_cons_succ, List.length_cons,
          List.drop_succ_cons, List.drop_zero]
        rw [if_pos (by refine ⟨by omega, ⟨by omega, by omega⟩, ⟨by omega, by omega⟩,
              ⟨by omega, by omega⟩, ?_, ?_⟩ <;> omega)]
        rw [utf8DecodeF_irrel (rest.length + 1 + 1 + 1) rest.length rest (by omega) (Nat.le_refl _)]
        have harith : (0xF0 + c.toNat / 262144 - 0xF0) * 262144
            + (0x80 + c.toNat / 4096 % 64 - 0x80) * 4096
            + (0x80 + c.toNat / 64 % 64 - 0x80) * 64 + (0x80 + c.toNat % 64 - 0x80) = c.toNat := by
          omega
        rw [harith, hofNat]

theorem utf8Decode_utf8Encode (s : List Char) : utf8Decode (utf8Encode s) = some s := by
  induction s with
  | nil => simp [utf8Encode, utf8Decode, utf8DecodeF]
  | cons c cs ih =>
    have h : utf8Encode (c :: cs) = utf8EncodeChar c ++ utf8Encode cs := by
      simp [utf8Encode]
    rw [h, utf8Decode_encodeChar, ih]
    rfl

/-! ### TOML codec lemmas -/

theorem parseHexDigit_hexDigitChar (d : Nat) (hd : d < 16) :
    parseHexDigit (hexDigitChar d) = some d := by
  interval_cases d <;> decide

theorem takeWhile_all_append (p : Char → Bool) (l : List Char) (x : Char) (r : List Char)
    (hl : ∀ c ∈ l, p c = true) (hx : p x = false) :
    (l ++ x :: r).takeWhile p = l := by
  induction l with
  | nil => simp [List.takeWhile_cons, hx]
  | cons a l ih =>
    have ha : p a = true := hl a (by simp)
    simp only [List.cons_append, List.takeWhile_cons, ha, if_true]
    rw [ih (fun c hc => hl c (by simp [hc]))]

theorem dropWhile_all_append (p : Char → Bool) (l : List Char) (x : Char) (r : List Char)
    (hl : ∀ c ∈ l, p c = true) (hx : p x = false) :
    (l ++ x :: r).dropWhile p = x :: r := by
  induction l with
  | nil => simp [List.dropWhile_cons, hx]
  | cons a l ih =>
    have ha : p a = true := hl a (by simp)
    simp only [List.cons_append, List.dropWhile_cons, ha, if_true]
    exact ih (fun c hc => hl c (by simp [hc]))

theorem dropSpaces_of_head (c : Char) (l : List Char) (h : (c == ' ' || c == '\t') = false) :
    dropSpaces (c :: l) = c :: l := by
  simp [dropSpaces, List.dropWhile_cons, h]

theorem parseBasicStringF_irrel (fuel1 : Nat) : ∀ (fuel2 : Nat) (l : List Char),
    l.length ≤ fuel1 → l.length ≤ fuel2 → parseBasicStringF fuel1 l = parseBasicStringF fuel2 l := by
  induction fuel1 with
  | zero =>
    intro fuel2 l h1 _
    have hl : l = [] := List.eq_nil_of_length_eq_zero (Nat.le_zero.mp h1)
    subst hl
    cases fuel2 <;> rfl
  | succ f1 ih =>
    intro fuel2 l h1 h2
    cases l with
    | nil => cases fuel2 <;> rfl
    | cons b bs =>
      cases fuel2 with
      | zero => simp at h2
      | succ f2 =>
        have hbs1 : bs.length ≤ f1 := by simp at h1; omega
        have hbs2 : bs.length ≤ f2 := by simp at h2; omega
        simp only [parseBasicStringF]
        rw [ih f2 bs hbs1 hbs2]
        simp only [ih f2 (bs.drop 1) (by simp; omega) (by simp; omega),
          ih f2 ((bs.drop 1).drop 4) (by simp; omega) (by simp; omega)]

theorem parseBasicString_quote (rest : List Char) :
    parseBasicString ('"' :: rest) = some ([], rest) := rfl

theorem parseBasicString_escapeChar (c : Char) (tail : List Char) :
    parseBasicString (escapeChar c ++ tail)
      = (parseBasicString tail).map (fun r => (c :: r.1, r.2)) := by
  have hofNat : Char.ofNat c.toNat = c := Char.ofNat_toNat c
  unfold escapeChar parseBasicString
  by_cases hq : c = '"'
  · subst hq
    rw [if_pos rfl, List.cons_append, List.cons_append, List.nil_append, List.length_cons,
      List.length_cons, parseBasicStringF]
    rw [if_neg (by decide), if_pos rfl, if_neg (by simp)]
    simp only [List.getD_cons_zero, List.drop_succ_cons, List.drop_zero]
    rw [parseBasicStringF_irrel (tail.length + 1) tail.length tail (by omega) (Nat.le_refl _)]
    simp
  · by_cases hb : c = '\\'
    · subst hb
      rw [if_neg hq, if_pos rfl, List.cons_append, List.cons_append, List.nil_append,
        List.length_cons, List.length_cons, parseBasicStringF]
      rw [if_neg (by decide), if_pos rfl, if_neg (by simp)]
      simp only [List.getD_cons_zero, List.drop_succ_cons, List.drop_zero]
      rw [parseBasicStringF_irrel (tail.length + 1) tail.length tail (by omega) (Nat.le_refl _)]
      simp
    · by_cases hc : c.toNat < 0x20 ∨ c.toNat = 0x7F
      · rw [if_neg hq, if_neg hb, if_pos (by simpa using hc)]
        simp only [hex4, List.cons_append, List.nil_append, List.length_cons]
        rw [parseBasicStringF]
        rw [if_neg (by decide), if_pos rfl, if_neg (by simp)]
        simp only [List.getD_cons_zero, List.getD_cons_succ, List.drop_succ_cons, List.drop_zero]
        have hh1 := parseHexDigit_hexDigitChar (c.toNat / 4096 % 16) (by omega)
        have hh2 := parseHexDigit_hexDigitChar (c.toNat / 256 % 16) (by omega)
        have hh3 := parseHexDigit_hexDigitChar (c.toNat / 16 % 16) (by omega)
        have hh4 := parseHexDigit_hexDigitChar (c.toNat % 16) (by omega)
        have harith : c.toNat / 4096 % 16 * 4096 + c.toNat / 256 % 16 * 256
            + c.toNat / 16 % 16 * 16 + c.toNat % 16 = c.toNat := by
          omega
        simp only [if_pos trivial, List.length_cons, hh1, hh2, hh3, hh4, harith]
        rw [if_pos (by omega), if_pos (by omega)]
        rw [parseBasicStringF_irrel (tail.length + 1 + 1 + 1 + 1 + 1) tail.length tail
          (by omega) (Nat.le_refl _), hofNat]
      · rw [if_neg hq, if_neg hb, if_neg (by simpa using hc), List.cons_append,
          List.nil_append, List.length_cons, parseBasicStringF]
        rw [if_neg hq, if_neg hb, if_neg hc]

theorem parseBasicString_escapeBody (s : List Char) (rest : List Char) :
    parseBasicString (escapeBody s ++ '"' :: rest) = some (s, rest) := by
  induction s with
  | nil =>
    rw [show escapeBody [] = [] from rfl, List.nil_append, parseBasicString_quote]
  | cons c cs ih =>
    have h : escapeBody (c :: cs) = escapeChar c ++ escapeBody cs := by
      simp [escapeBody]
    rw [h, List.append_assoc, parseBasicString_escapeChar, ih]
    rfl

theorem parseEntryRest_encoded (k v : List Char) (hval : isValidUuid (String.mk v) = true) :
    parseEntryRest k (' ' :: '=' :: ' ' :: '"' :: (escapeBody v ++ ['"']))
      = some (String.mk k, String.mk v) := by
  have h1 : dropSpaces (' ' :: '=' :: ' ' :: '"' :: (escapeBody v ++ ['"']))
      = '=' :: ' ' :: '"' :: (escapeBody v ++ ['"']) := by
    simp [dropSpaces, List.dropWhile_cons]
  have h2 : dropSpaces (' ' :: '"' :: (escapeBody v ++ ['"'])) = '"' :: (escapeBody v ++ ['"']) := by
    simp [dropSpaces, List.dropWhile_cons]
  have h3 : parseBasicString (escapeBody v ++ ['"']) = some (v, []) :=
    parseBasicString_escapeBody v []
  unfold parseEntryRest
  rw [h1]
  simp only [if_pos trivial, h2, h3, hval]
  simp [dropSpaces]

theorem bare_not_space (c : Char) (h : isBareChar c = true) : (c == ' ' || c == '\t') = false := by
  cases hc : (c == ' ' || c == '\t') with
  | false => rfl
  | true =>
    have hd : c = ' ' ∨ c = '\t' := by simpa using hc
    rcases hd with h1 | h1 <;> rw [h1] at h <;> exact absurd h (by decide)

theorem bareKeyOk_all (k : List Char) (h : bareKeyOk k = true) : ∀ c ∈ k, isBareChar c = true := by
  have := (Bool.and_eq_true _ _).mp h
  exact fun c hc => List.all_eq_true.mp this.2 c hc

theorem parseEntryLine_entryLine (k v : String) (hval : isValidUuid v = true) :
    parseEntryLine (entryLine k v) = some (k, v) := by
  obtain ⟨kd⟩ := k
  obtain ⟨vd⟩ := v
  unfold entryLine encodeKey
  by_cases hbare : bareKeyOk (String.mk kd).data = true
  · rw [if_pos hbare]
    have hall : ∀ c ∈ kd, isBareChar c = true := bareKeyOk_all kd hbare
    obtain ⟨c, ks, hk⟩ : ∃ c ks, kd = c :: ks := by
      cases hkd : kd with
      | nil =>
        rw [hkd] at hbare
        exact absurd hbare (by decide)
      | cons c ks => exact ⟨c, ks, rfl⟩
    have hcbare : isBareChar c = true := hall c (by rw [hk]; simp)
    have hcq : ¬ c = '"' := by
      intro h
      rw [h] at hcbare
      exact absurd hcbare (by decide)
    show parseEntryLine (kd ++ ' ' :: '=' :: ' ' :: '"' :: (escapeBody vd ++ ['"'])) = _
    rw [hk, List.cons_append, parseEntryLine, if_neg hcq]
    rw [show (c :: (ks ++ ' ' :: '=' :: ' ' :: '"' :: (escapeBody vd ++ ['"'])))
        = (c :: ks) ++ ' ' :: '=' :: ' ' :: '"' :: (escapeBody vd ++ ['"']) from rfl]
    rw [takeWhile_all_append isBareChar (c :: ks) ' ' _ (by rw [← hk]; exact hall) (by decide),
      dropWhile_all_append isBareChar (c :: ks) ' ' _ (by rw [← hk]; exact hall) (by decide)]
    rw [if_neg (by simp)]
    rw [parseEntryRest_encoded (c :: ks) vd hval, ← hk]
  · rw [if_neg hbare]
    show parseEntryLine (('"' :: (escapeBody kd ++ ['"']))
        ++ ' ' :: '=' :: ' ' :: '"' :: (escapeBody vd ++ ['"'])) = _
    rw [List.cons_append, parseEntryLine, if_pos rfl]
    rw [List.append_assoc, List.cons_append, List.nil_append]
    rw [parseBasicString_escapeBody kd (' ' :: '=' :: ' ' :: '"' :: (escapeBody vd ++ ['"']))]
    exact parseEntryRest_encoded kd vd hval

theorem lookupKey_eq_none (k : String) (l : List (String × String))
    (h : ∀ p ∈ l, p.1 ≠ k) : lookupKey k l = none := by
  induction l with
  | nil => rfl
  | cons a rest ih =>
    obtain ⟨a1, a2⟩ := a
    rw [lookupKey, if_neg (h (a1, a2) (by simp))]
    exact ih (fun p hp => h p (by simp [hp]))

theorem splitLines_ne_nil (l : List Char) : splitLines l ≠ [] := by
  induction l with
  | nil => simp [splitLines]
  | cons c rest ih =>
    rw [splitLines]
    cases h : splitLines rest with
    | nil => simp
    | cons a as => by_cases hc : c = '\n' <;> simp [hc]

theorem splitLines_line_append (l r : List Char) (hl : '\n' ∉ l) :
    splitLines (l ++ '\n' :: r) = l :: splitLines r := by
  induction l with
  | nil =>
    rw [List.nil_append, splitLines]
    cases h : splitLines r with
    | nil => exact absurd h (splitLines_ne_nil r)
    | cons a as => simp [h]
  | cons c cs ih =>
    have hc : ¬ c = '\n' := fun h => hl (by simp [h])
    rw [List.cons_append, splitLines]
    rw [ih (fun h => hl (by simp [h]))]
    simp [hc]

theorem joinLines_cons (l : List Char) (ls : List (List Char)) :
    joinLines (l :: ls) = l ++ '\n' :: joinLines ls := by
  simp [joinLines]

theorem splitLines_joinLines (ls : List (List Char)) (h : ∀ l ∈ ls, '\n' ∉ l) :
    splitLines (joinLines ls) = ls ++ [[]] := by
  induction ls with
  | nil => simp [joinLines, splitLines]
  | cons a as ih =>
    rw [joinLines_cons, splitLines_line_append _ _ (h a (by simp)),
      ih (fun l hl => h l (by simp [hl]))]
    rfl

theorem hexDigitChar_ne_newline (d : Nat) (hd : d < 16) : hexDigitChar d ≠ '\n' := by
  interval_cases d <;> decide

theorem newline_not_mem_escapeChar (c : Char) : '\n' ∉ escapeChar c := by
  unfold escapeChar
  by_cases hq : c = '"'
  · subst hq; rw [if_pos rfl]; decide
  · rw [if_neg hq]
    by_cases hb : c = '\\'
    · subst hb; rw [if_pos rfl]; decide
    · rw [if_neg hb]
      by_cases hc : (c.toNat < 0x20 || c.toNat == 0x7F) = true
      · rw [if_pos hc]
        intro hmem
        simp only [hex4, List.mem_cons] at hmem
        rcases hmem with h | h | h | h | h | h | h
        · exact absurd h (by decide)
        · exact absurd h (by decide)
        · exact hexDigitChar_ne_newline _ (by omega) h.symm
        · exact hexDigitChar_ne_newline _ (by omega) h.symm
        · exact hexDigitChar_ne_newline _ (by omega) h.symm
        · exact hexDigitChar_ne_newline _ (by omega) h.symm
        · simp at h
      · rw [if_neg hc]
        intro hmem
        have hceq : '\n' = c := by simpa using hmem
        rw [← hceq] at hc
        exact hc (by decide)

theorem newline_not_mem_escapeBody (s : List Char) : '\n' ∉ escapeBody s := by
  intro h
  simp only [escapeBody, List.mem_flatMap] at h
  obtain ⟨c, _, hc⟩ := h
  exact newline_not_mem_escapeChar c hc

theorem bare_ne_of (c x : Char) (h : isBareChar c = true) (hx : isBareChar x = false) :
    c ≠ x := by
  intro hcx
  rw [hcx, hx] at h
  exact absurd h (by decide)

theorem newline_not_mem_entryLine (k v : String) : '\n' ∉ entryLine k v := by
  intro h
  unfold entryLine encodeKey at h
  by_cases hbare : bareKeyOk k.data = true
  · rw [if_pos hbare] at h
    rcases List.mem_append.mp h with h1 | h1
    · exact absurd (bareKeyOk_all k.data hbare '\n' h1) (by decide)
    · simp only [List.mem_cons] at h1
      rcases h1 with h2 | h2 | h2 | h2 | h2
      · exact absurd h2 (by decide)
      · exact absurd h2 (by decide)
      · exact absurd h2 (by decide)
      · exact absurd h2 (by decide)
      · rcases List.mem_append.mp h2 with h3 | h3
        · exact newline_not_mem_escapeBody v.data h3
        · simp at h3
  · rw [if_neg hbare, List.cons_append] at h
    simp only [List.mem_cons] at h
    rcases h with h | h
    · exact absurd h (by decide)
    · rw [List.append_assoc] at h
      rcases List.mem_append.mp h with h1 | h1
      · exact newline_not_mem_escapeBody k.data h1
      · simp only [List.cons_append, List.nil_append, List.mem_cons] at h1
        rcases h1 with h2 | h2 | h2 | h2 | h2 | h2
        · exact absurd h2 (by decide)
        · exact absurd h2 (by decide)
        · exact absurd h2 (by decide)
        · exact absurd h2 (by decide)
        · exact absurd h2 (by decide)
        · rcases List.mem_append.mp h2 with h3 | h3
          · exact newline_not_mem_escapeBody v.data h3
          · simp at h3

theorem entryLine_shape (k v : String) :
    ∃ c t, entryLine k v = c :: t ∧ (c == ' ' || c == '\t') = false ∧ c ≠ '#' ∧ c ≠ '[' := by
  unfold entryLine encodeKey
  by_cases hbare : bareKeyOk k.data = true
  · rw [if_pos hbare]
    obtain ⟨c, ks, hk⟩ : ∃ c ks, k.data = c :: ks := by
      cases hkd : k.data with
      | nil =>
        rw [hkd] at hbare
        exact absurd hbare (by decide)
      | cons c ks => exact ⟨c, ks, rfl⟩
    have hcbare : isBareChar c = true := bareKeyOk_all k.data hbare c (by rw [hk]; simp)
    refine ⟨c, ks ++ ' ' :: '=' :: ' ' :: '"' :: (escapeBody v.data ++ ['"']), ?_, ?_, ?_, ?_⟩
    · rw [hk, List.cons_append]
    · exact bare_not_space c hcbare
    · exact bare_ne_of c '#' hcbare (by decide)
    · exact bare_ne_of c '[' hcbare (by decide)
  · rw [if_neg hbare]
    exact ⟨'"', _, by rw [List.cons_append], by decide, by decide, by decide⟩

theorem decodeLines_header_tags (rest : List (List Char)) (cur : Option UType) (seenTypes : Bool)
    (tags types : List (String × String)) :
    decodeLines ("[unique_tags]".data :: rest) cur false seenTypes tags types
      = decodeLines rest (some .UniqueTags) true seenTypes tags types := rfl

theorem decodeLines_header_types (rest : List (List Char)) (cur : Option UType) (seenTags : Bool)
    (tags types : List (String × String)) :
    decodeLines ("[unique_type_tags]".data :: rest) cur seenTags false tags types
      = decodeLines rest (some .UniqueTypeTags) seenTags true tags types := rfl

theorem decodeLines_entry_step (k v : String) (rest : List (List Char)) (cur : Option UType)
    (seenTags seenTypes : Bool) (tags types : List (String × String)) :
    decodeLines (entryLine k v :: rest) cur seenTags seenTypes tags types
      = (match parseEntryLine (entryLine k v) with
        | some (k', v') =>
          match cur with
          | some .UniqueTags =>
            if (lookupKey k' tags).isSome then none
            else decodeLines rest cur seenTags seenTypes (tags ++ [(k', v')]) types
          | some .UniqueTypeTags =>
            if (lookupKey k' types).isSome then none
            else decodeLines rest cur seenTags seenTypes tags (types ++ [(k', v')])
          | none => none
        | none => none) := by
  obtain ⟨c, t, hshape, hsp, hhash, hbrack⟩ := entryLine_shape k v
  rw [decodeLines, hshape, dropSpaces_of_head c t hsp]
  simp only []
  rw [if_neg hhash, if_neg hbrack, ← hshape]

theorem decodeLines_tags_block (entries : List (String × String)) (rest : List (List Char))
    (seenTags seenTypes : Bool) (tags types : List (String × String))
    (hval : ∀ p ∈ entries, isValidUuid p.2 = true)
    (hpw : (tags ++ entries).Pairwise (fun a b => a.1 ≠ b.1)) :
    decodeLines (entries.map (fun p => entryLine p.1 p.2) ++ rest)
        (some .UniqueTags) seenTags seenTypes tags types
      = decodeLines rest (some .UniqueTags) seenTags seenTypes (tags ++ entries) types := by
  induction entries generalizing tags with
  | nil => simp
  | cons p ps ih =>
    obtain ⟨k, v⟩ := p
    rw [List.map_cons, List.cons_append,
      decodeLines_entry_step k v _ _ _ _ _ _,
      parseEntryLine_entryLine k v (hval (k, v) (by simp))]
    simp only []
    have hnone : lookupKey k tags = none := by
      apply lookupKey_eq_none
      intro q hq
      exact (List.pairwise_append.mp hpw).2.2 q hq (k, v) (by simp)
    rw [hnone]
    have hpw' : ((tags ++ [(k, v)]) ++ ps).Pairwise (fun a b => a.1 ≠ b.1) := by
      rwa [List.append_assoc, List.singleton_append]
    rw [show (if (none : Option String).isSome then none
        else decodeLines (List.map (fun p => entryLine p.1 p.2) ps ++ rest)
          (some UType.UniqueTags) seenTags seenTypes (tags ++ [(k, v)]) types)
      = decodeLines (List.map (fun p => entryLine p.1 p.2) ps ++ rest)
          (some UType.UniqueTags) seenTags seenTypes (tags ++ [(k, v)]) types from rfl]
    rw [ih (tags ++ [(k, v)]) (fun q hq => hval q (by simp [hq])) hpw']
    rw [List.append_assoc, List.singleton_append]

theorem decodeLines_types_block (entries : List (String × String)) (rest : List (List Char))
    (seenTags seenTypes : Bool) (tags types : List (String × String))
    (hval : ∀ p ∈ entries, isValidUuid p.2 = true)
    (hpw : (types ++ entries).Pairwise (fun a b => a.1 ≠ b.1)) :
    decodeLines (entries.map (fun p => entryLine p.1 p.2) ++ rest)
        (some .UniqueTypeTags) seenTags seenTypes tags types
      = decodeLines rest (some .UniqueTypeTags) seenTags seenTypes tags (types ++ entries) := by
  induction entries generalizing types with
  | nil => simp
  | cons p ps ih =>
    obtain ⟨k, v⟩ := p
    rw [List.map_cons, List.cons_append,
      decodeLines_entry_step k v _ _ _ _ _ _,
      parseEntryLine_entryLine k v (hval (k, v) (by simp))]
    simp only []
    have hnone : lookupKey k types = none := by
      apply lookupKey_eq_none
      intro q hq
      exact (List.pairwise_append.mp hpw).2.2 q hq (k, v) (by simp)
    rw [hnone]
    have hpw' : ((types ++ [(k, v)]) ++ ps).Pairwise (fun a b => a.1 ≠ b.1) := by
      rwa [List.append_assoc, List.singleton_append]
    rw [show (if (none : Option String).isSome then none
        else decodeLines (List.map (fun p => entryLine p.1 p.2) ps ++ rest)
          (some UType.UniqueTypeTags) seenTags seenTypes tags (types ++ [(k, v)]))
      = decodeLines (List.map (fun p => entryLine p.1 p.2) ps ++ rest)
          (some UType.UniqueTypeTags) seenTags seenTypes tags (types ++ [(k, v)]) from rfl]
    rw [ih (types ++ [(k, v)]) (fun q hq => hval q (by simp [hq])) hpw']
    rw [List.append_assoc, List.singleton_append]

theorem decode_encode (fs : FileStructure) (hwf : wf fs) : decode (encode fs) = some fs := by
  obtain ⟨tags, types⟩ := fs
  obtain ⟨⟨hpw1, hval1⟩, hpw2, hval2⟩ := hwf
  unfold decode encode encodeLines
  rw [splitLines_joinLines]
  · simp only [List.cons_append, List.append_assoc, List.nil_append]
    rw [decodeLines_header_tags]
    rw [decodeLines_tags_block tags _ _ _ _ _ (by simpa using hval1) (by simpa using hpw1)]
    rw [List.nil_append, decodeLines_header_types]
    rw [decodeLines_types_block types _ _ _ _ _ (by simpa using hval2) (by simpa using hpw2)]
    rw [List.nil_append]
    rfl
  · intro l hl
    simp only [List.mem_append, List.mem_cons, List.mem_map] at hl
    rcases hl with (h | ⟨p, _, hp⟩) | (h | ⟨p, _, hp⟩)
    · rw [h]; decide
    · rw [← hp]; exact newline_not_mem_entryLine p.1 p.2
    · rw [h]; decide
    · rw [← hp]; exact newline_not_mem_entryLine p.1 p.2

/-! ### Registry and allocator lemmas -/

theorem lookupKey_ne_of_none (k : String) (l : List (String × String))
    (h : lookupKey k l = none) : ∀ p ∈ l, p.1 ≠ k := by
  induction l with
  | nil => simp
  | cons a rest ih =>
    obtain ⟨a1, a2⟩ := a
    rw [lookupKey] at h
    by_cases ha : a1 = k
    · rw [if_pos ha] at h
      exact absurd h (by simp)
    · rw [if_neg ha] at h
      intro p hp
      rcases List.mem_cons.mp hp with h1 | h1
      · rw [h1]
        exact ha
      · exact ih h p h1

theorem lookupKey_append_old (k : String) (l r : List (String × String)) (u : String)
    (h : lookupKey k l = some u) : lookupKey k (l ++ r) = some u := by
  induction l with
  | nil => simp [lookupKey] at h
  | cons a rest ih =>
    obtain ⟨a1, a2⟩ := a
    rw [lookupKey] at h
    rw [List.cons_append, lookupKey]
    by_cases ha : a1 = k
    · rwa [if_pos ha] at h ⊢
    · rw [if_neg ha] at h ⊢
      exact ih h

theorem lookupKey_append_new (k : String) (l : List (String × String)) (u : String)
    (h : lookupKey k l = none) : lookupKey k (l ++ [(k, u)]) = some u := by
  induction l with
  | nil => simp [lookupKey]
  | cons a rest ih =>
    obtain ⟨a1, a2⟩ := a
    rw [lookupKey] at h
    rw [List.cons_append, lookupKey]
    by_cases ha : a1 = k
    · rw [if_pos ha] at h
      exact absurd h (by simp)
    · rw [if_neg ha] at h ⊢
      exact ih h

theorem wfTable_insert (l : List (String × String)) (k u : String) (hwf : wfTable l)
    (hnone : lookupKey k l = none) (hu : isValidUuid u = true) : wfTable (l ++ [(k, u)]) := by
  constructor
  · rw [List.pairwise_append]
    refine ⟨hwf.1, by simp, ?_⟩
    intro a ha b hb
    have hb' : b = (k, u) := by simpa using hb
    rw [hb']
    exact lookupKey_ne_of_none k l hnone a ha
  · intro p hp
    rcases List.mem_append.mp hp with h1 | h1
    · exact hwf.2 p h1
    · rw [show p = (k, u) from by simpa using h1]
      exact hu

theorem insertNew_table_same (fs : FileStructure) (ty : UType) (k u : String) :
    (fs.insertNew ty k u).table ty = fs.table ty ++ [(k, u)] := by
  cases ty <;> rfl

theorem insertNew_tags_of_types (fs : FileStructure) (k u : String) :
    (fs.insertNew .UniqueTypeTags k u).unique_tags = fs.unique_tags := rfl

theorem insertNew_types_of_tags (fs : FileStructure) (k u : String) :
    (fs.insertNew .UniqueTags k u).unique_type_tags = fs.unique_type_tags := rfl

theorem wf_insertNew (fs : FileStructure) (ty : UType) (k u : String) (hwf : wf fs)
    (hnone : lookupKey k (fs.table ty) = none) (hu : isValidUuid u = true) :
    wf (fs.insertNew ty k u) := by
  cases ty
  · exact ⟨wfTable_insert fs.unique_tags k u hwf.1 hnone hu, hwf.2⟩
  · exact ⟨hwf.1, wfTable_insert fs.unique_type_tags k u hwf.2 hnone hu⟩

theorem get_uuid_hit (tag : String) (ty : UType) (fresh : String) (bytes : List Nat)
    (contents : List Char) (fs : FileStructure) (u : String)
    (hread : utf8Decode bytes = some contents) (hdec : decode contents = some fs)
    (hlook : lookupKey tag (fs.table ty) = some u) :
    get_uuid_from_tag tag ty fresh (some bytes) = .ok ⟨u, bytes, false⟩ := by
  unfold get_uuid_from_tag
  rw [show (some bytes).getD [] = bytes from rfl]
  simp only []
  rw [hread]
  simp only []
  rw [hdec]
  simp only []
  rw [hlook]

theorem get_uuid_miss (tag : String) (ty : UType) (fresh : String) (bytes : List Nat)
    (contents : List Char) (fs : FileStructure)
    (hread : utf8Decode bytes = some contents) (hdec : decode contents = some fs)
    (hlook : lookupKey tag (fs.table ty) = none) :
    get_uuid_from_tag tag ty fresh (some bytes)
      = .ok ⟨fresh, rewrite_all bytes (utf8Encode (encode (fs.insertNew ty tag fresh))), true⟩ := by
  unfold get_uuid_from_tag
  rw [show (some bytes).getD [] = bytes from rfl]
  simp only []
  rw [hread]
  simp only []
  rw [hdec]
  simp only []
  rw [hlook]

theorem get_uuid_read_error (tag : String) (ty : UType) (fresh : String) (bytes : List Nat)
    (hread : utf8Decode bytes = none) :
    get_uuid_from_tag tag ty fresh (some bytes) = .error .ReadError := by
  unfold get_uuid_from_tag
  rw [show (some bytes).getD [] = bytes from rfl]
  simp only []
  rw [hread]

theorem get_uuid_format_error (tag : String) (ty : UType) (fresh : String) (bytes : List Nat)
    (contents : List Char)
    (hread : utf8Decode bytes = some contents) (hdec : decode contents = none) :
    get_uuid_from_tag tag ty fresh (some bytes) = .error .FormatError := by
  unfold get_uuid_from_tag
  rw [show (some bytes).getD [] = bytes from rfl]
  simp only []
  rw [hread]
  simp only []
  rw [hdec]

/-! ### Claim theorems -/

/-- C3: calling allocate against a nonexistent store file is not an error: the
file is created, the absent content is treated as an empty registry in both
namespaces, and the resulting store contains exactly one entry, in the section
of the requested namespace, mapping the given key to the freshly generated
UUID. -/
theorem allocate_fresh_store (ty : UType) (k fresh : String)
    (hval : isValidUuid fresh = true) :
    get_uuid_from_tag k ty fresh none
      = .ok ⟨fresh, utf8Encode (encode (FileStructure.insertNew ⟨[], []⟩ ty k fresh)), true⟩
    ∧ bytesDecode (utf8Encode (encode (FileStructure.insertNew ⟨[], []⟩ ty k fresh)))
        = some (FileStructure.insertNew ⟨[], []⟩ ty k fresh)
    ∧ (FileStructure.insertNew ⟨[], []⟩ ty k fresh).table ty = [(k, fresh)]
    ∧ (∀ ty2 : UType, ty2 ≠ ty → (FileStructure.insertNew ⟨[], []⟩ ty k fresh).table ty2 = []) := by
  have hwfe : wf (⟨[], []⟩ : FileStructure) := by
    constructor <;> exact ⟨List.Pairwise.nil, by simp⟩
  have hlook : lookupKey k ((⟨[], []⟩ : FileStructure).table ty) = none := by
    cases ty <;> rfl
  have hwf' : wf (FileStructure.insertNew ⟨[], []⟩ ty k fresh) :=
    wf_insertNew ⟨[], []⟩ ty k fresh hwfe hlook hval
  refine ⟨?_, ?_, ?_, ?_⟩
  · have h0 : get_uuid_from_tag k ty fresh none = get_uuid_from_tag k ty fresh (some []) := rfl
    rw [h0, get_uuid_miss k ty fresh [] [] ⟨[], []⟩ rfl rfl hlook]
    simp [rewrite_all]
  · unfold bytesDecode
    rw [utf8Decode_utf8Encode]
    exact decode_encode _ hwf'
  · cases ty <;> rfl
  · intro ty2 hne
    cases ty <;> cases ty2 <;> first | rfl | exact absurd rfl hne

theorem allocate_fresh_store_witness :
    isValidUuid uuidA = true
    ∧ (get_uuid_from_tag "k" .UniqueTags uuidA none
        = .ok ⟨uuidA,
            utf8Encode (encode (FileStructure.insertNew ⟨[], []⟩ .UniqueTags "k" uuidA)), true⟩
      ∧ bytesDecode (utf8Encode (encode (FileStructure.insertNew ⟨[], []⟩ .UniqueTags "k" uuidA)))
          = some (FileStructure.insertNew ⟨[], []⟩ .UniqueTags "k" uuidA)
      ∧ (FileStructure.insertNew ⟨[], []⟩ .UniqueTags "k" uuidA).table .UniqueTags
          = [("k", uuidA)]
      ∧ (∀ ty2 : UType, ty2 ≠ .UniqueTags →
          (FileStructure.insertNew ⟨[], []⟩ .UniqueTags "k" uuidA).table ty2 = [])) :=
  ⟨by decide, allocate_fresh_store .UniqueTags "k" uuidA (by decide)⟩

/-- C4: a store file whose existing content cannot be parsed into the
two-namespace schema makes allocate fail with a fatal FormatError before any
lookup or write: no fallback registry, no fresh UUID is returned, and the store
is left unmodified. -/
theorem allocate_corrupt_rejected (tag : String) (ty : UType) (fresh : String) (bytes : List Nat)
    (contents : List Char) (hread : utf8Decode bytes = some contents)
    (hdec : decode contents = none) :
    get_uuid_from_tag tag ty fresh (some bytes) = .error .FormatError
    ∧ ∀ out : AllocOutcome, get_uuid_from_tag tag ty fresh (some bytes) ≠ .ok out := by
  have h := get_uuid_format_error tag ty fresh bytes contents hread hdec
  refine ⟨h, fun out hout => ?_⟩
  rw [h] at hout
  exact Except.noConfusion hout

theorem allocate_corrupt_rejected_witness :
    utf8Decode (utf8Encode "garbage".data) = some "garbage".data
    ∧ decode "garbage".data = none
    ∧ (get_uuid_from_tag "a" .UniqueTags uuidA (some (utf8Encode "garbage".data))
        = .error .FormatError
      ∧ ∀ out : AllocOutcome,
          get_uuid_from_tag "a" .UniqueTags uuidA (some (utf8Encode "garbage".data)) ≠ .ok out) :=
  ⟨by decide, by decide,
    allocate_corrupt_rejected "a" .UniqueTags uuidA (utf8Encode "garbage".data) "garbage".data
      (by decide) (by decide)⟩

/-- C10: a store file whose bytes are not valid UTF-8 makes allocate abort
fatally at the read step, before decoding and before any lookup or write,
leaving the store unmodified; the error is distinct from FormatError. -/
theorem allocate_invalid_utf8 (tag : String) (ty : UType) (fresh : String) (bytes : List Nat)
    (hread : utf8Decode bytes = none) :
    get_uuid_from_tag tag ty fresh (some bytes) = .error .ReadError
    ∧ AllocError.ReadError ≠ AllocError.FormatError
    ∧ ∀ out : AllocOutcome, get_uuid_from_tag tag ty fresh (some bytes) ≠ .ok out := by
  have h := get_uuid_read_error tag ty fresh bytes hread
  refine ⟨h, by decide, fun out hout => ?_⟩
  rw [h] at hout
  exact Except.noConfusion hout

theorem allocate_invalid_utf8_witness :
    utf8Decode [255] = none
    ∧ (get_uuid_from_tag "a" .UniqueTags uuidA (some [255]) = .error .ReadError
      ∧ AllocError.ReadError ≠ AllocError.FormatError
      ∧ ∀ out : AllocOutcome,
          get_uuid_from_tag "a" .UniqueTags uuidA (some [255]) ≠ .ok out) :=
  ⟨by decide, allocate_invalid_utf8 "a" .UniqueTags uuidA [255] (by decide)⟩

/-- C8: the derive macro forms the type-registry key by joining an
always-empty module-path prefix to the bare type name with the `::` separator,
so the key stored for type `T` is `"::T"`, not the bare `T`. -/
theorem typeKey_prefixed : ∀ T : String, typeKey T = "::" ++ T ∧ typeKey T ≠ T := by
  intro T
  constructor
  · rfl
  · intro h
    have hlen := congrArg String.length h
    rw [show typeKey T = "::" ++ T from rfl, String.length_append,
      show ("::" : String).length = 2 from rfl] at hlen
    omega

/-- C6: on the miss path the store rewrite repositions to the beginning of the
file and writes the new full encoded contents without truncating: when the new
encoding is at least as long as the previous contents the file afterwards
equals exactly the new encoding, but when the new encoding is shorter, the
trailing bytes of the old contents beyond the new length remain. -/
theorem rewrite_no_truncate (ty : UType) (k fresh : String) (bytes : List Nat)
    (contents : List Char) (fs : FileStructure)
    (hread : utf8Decode bytes = some contents) (hdec : decode contents = some fs)
    (hlook : lookupKey k (fs.table ty) = none) :
    get_uuid_from_tag k ty fresh (some bytes)
      = .ok ⟨fresh, utf8Encode (encode (fs.insertNew ty k fresh))
          ++ bytes.drop (utf8Encode (encode (fs.insertNew ty k fresh))).length, true⟩
    ∧ (bytes.length ≤ (utf8Encode (encode (fs.insertNew ty k fresh))).length →
        rewrite_all bytes (utf8Encode (encode (fs.insertNew ty k fresh)))
          = utf8Encode (encode (fs.insertNew ty k fresh)))
    ∧ ((utf8Encode (encode (fs.insertNew ty k fresh))).length < bytes.length →
        rewrite_all bytes (utf8Encode (encode (fs.insertNew ty k fresh)))
          = utf8Encode (encode (fs.insertNew ty k fresh))
            ++ bytes.drop (utf8Encode (encode (fs.insertNew ty k fresh))).length
        ∧ bytes.drop (utf8Encode (encode (fs.insertNew ty k fresh))).length ≠ []) := by
  refine ⟨get_uuid_miss k ty fresh bytes contents fs hread hdec hlook, ?_, ?_⟩
  · intro hle
    unfold rewrite_all
    rw [List.drop_eq_nil_of_le hle, List.append_nil]
  · intro hlt
    refine ⟨rfl, ?_⟩
    intro hnil
    have hlen := congrArg List.length hnil
    rw [List.length_drop] at hlen
    simp only [List.length_nil] at hlen
    omega

theorem rewrite_no_truncate_witness :
    utf8Decode [] = some [] ∧ decode [] = some ⟨[], []⟩
    ∧ lookupKey "k" ((⟨[], []⟩ : FileStructure).table .UniqueTags) = none
    ∧ (get_uuid_from_tag "k" .UniqueTags uuidA (some ([] : List Nat))
        = .ok ⟨uuidA, utf8Encode (encode (FileStructure.insertNew ⟨[], []⟩ .UniqueTags "k" uuidA))
            ++ List.drop
              (utf8Encode (encode (FileStructure.insertNew ⟨[], []⟩ .UniqueTags "k" uuidA))).length
              ([] : List Nat), true⟩
      ∧ (List.length ([] : List Nat) ≤ (utf8Encode (encode (FileStructure.insertNew ⟨[], []⟩
            .UniqueTags "k" uuidA))).length →
          rewrite_all ([] : List Nat) (utf8Encode (encode (FileStructure.insertNew ⟨[], []⟩
              .UniqueTags "k" uuidA)))
            = utf8Encode (encode (FileStructure.insertNew ⟨[], []⟩ .UniqueTags "k" uuidA)))
      ∧ ((utf8Encode (encode (FileStructure.insertNew ⟨[], []⟩
            .UniqueTags "k" uuidA))).length < List.length ([] : List Nat) →
          rewrite_all ([] : List Nat) (utf8Encode (encode (FileStructure.insertNew ⟨[], []⟩
              .UniqueTags "k" uuidA)))
            = utf8Encode (encode (FileStructure.insertNew ⟨[], []⟩ .UniqueTags "k" uuidA))
              ++ List.drop
                (utf8Encode (encode (FileStructure.insertNew ⟨[], []⟩
                  .UniqueTags "k" uuidA))).length ([] : List Nat)
          ∧ List.drop
              (utf8Encode (encode (FileStructure.insertNew ⟨[], []⟩
                .UniqueTags "k" uuidA))).length ([] : List Nat) ≠ [])) :=
  ⟨rfl, rfl, rfl, rewrite_no_truncate .UniqueTags "k" uuidA [] [] ⟨[], []⟩ rfl rfl rfl⟩

/-- C1 (amended): against an initial store whose decoded registry is
well-formed, allocating twice yields the same UUID both times and the second
call is a read-only hit — on the hit path unconditionally, and on the miss
path provided the updated encoding is at least as long as the prior content
(automatic for canonical stores, whose encoding grows on insertion); without
that proviso stale trailing bytes can corrupt the store (see the
counterexample). -/
theorem allocate_twice_stable (ty : UType) (k f1 f2 : String) (bytes : List Nat)
    (contents : List Char) (fs : FileStructure)
    (hread : utf8Decode bytes = some contents) (hdec : decode contents = some fs)
    (hwf : wf fs) (hval : isValidUuid f1 = true) :
    (∀ u, lookupKey k (fs.table ty) = some u →
      get_uuid_from_tag k ty f1 (some bytes) = .ok ⟨u, bytes, false⟩
        ∧ get_uuid_from_tag k ty f2 (some bytes) = .ok ⟨u, bytes, false⟩)
    ∧ (lookupKey k (fs.table ty) = none →
        bytes.length ≤ (utf8Encode (encode (fs.insertNew ty k f1))).length →
        get_uuid_from_tag k ty f1 (some bytes)
          = .ok ⟨f1, utf8Encode (encode (fs.insertNew ty k f1)), true⟩
        ∧ get_uuid_from_tag k ty f2 (some (utf8Encode (encode (fs.insertNew ty k f1))))
          = .ok ⟨f1, utf8Encode (encode (fs.insertNew ty k f1)), false⟩) := by
  constructor
  · intro u hu
    exact ⟨get_uuid_hit k ty f1 bytes contents fs u hread hdec hu,
      get_uuid_hit k ty f2 bytes contents fs u hread hdec hu⟩
  · intro hnone hcov
    have hmiss := get_uuid_miss k ty f1 bytes contents fs hread hdec hnone
    have hrw : rewrite_all bytes (utf8Encode (encode (fs.insertNew ty k f1)))
        = utf8Encode (encode (fs.insertNew ty k f1)) := by
      unfold rewrite_all
      rw [List.drop_eq_nil_of_le hcov, List.append_nil]
    rw [hrw] at hmiss
    have hwf' : wf (fs.insertNew ty k f1) := wf_insertNew fs ty k f1 hwf hnone hval
    have hlook2 : lookupKey k ((fs.insertNew ty k f1).table ty) = some f1 := by
      rw [insertNew_table_same]
      exact lookupKey_append_new k (fs.table ty) f1 hnone
    exact ⟨hmiss, get_uuid_hit k ty f2 _ (encode (fs.insertNew ty k f1)) (fs.insertNew ty k f1)
      f1 (utf8Decode_utf8Encode _) (decode_encode _ hwf') hlook2⟩

/-- C1 counterexample: against a valid initial store that is longer than the
updated encoding (empty tables followed by a long comment), the first
`allocate` succeeds but leaves stale trailing bytes, and the second call with
the same key aborts with a FormatError instead of returning the same UUID via
the hit path. -/
theorem allocate_twice_stable_cex :
    get_uuid_from_tag "k" .UniqueTags uuidA (some padStore1) = .ok ⟨uuidA, cexFile1, true⟩
    ∧ get_uuid_from_tag "k" .UniqueTags uuidB (some cexFile1) = .error .FormatError := by
  constructor
  · decide
  · decide

theorem allocate_twice_stable_witness :
    utf8Decode [] = some [] ∧ decode [] = some ⟨[], []⟩ ∧ wf (⟨[], []⟩ : FileStructure)
    ∧ isValidUuid uuidA = true
    ∧ ((∀ u, lookupKey "k" ((⟨[], []⟩ : FileStructure).table .UniqueTags) = some u →
        get_uuid_from_tag "k" .UniqueTags uuidA (some ([] : List Nat)) = .ok ⟨u, [], false⟩
          ∧ get_uuid_from_tag "k" .UniqueTags uuidB (some ([] : List Nat)) = .ok ⟨u, [], false⟩)
      ∧ (lookupKey "k" ((⟨[], []⟩ : FileStructure).table .UniqueTags) = none →
          List.length ([] : List Nat) ≤ (utf8Encode (encode (FileStructure.insertNew ⟨[], []⟩
            .UniqueTags "k" uuidA))).length →
          get_uuid_from_tag "k" .UniqueTags uuidA (some ([] : List Nat))
            = .ok ⟨uuidA, utf8Encode (encode (FileStructure.insertNew ⟨[], []⟩
                .UniqueTags "k" uuidA)), true⟩
          ∧ get_uuid_from_tag "k" .UniqueTags uuidB
              (some (utf8Encode (encode (FileStructure.insertNew ⟨[], []⟩
                .UniqueTags "k" uuidA))))
            = .ok ⟨uuidA, utf8Encode (encode (FileStructure.insertNew ⟨[], []⟩
                .UniqueTags "k" uuidA)), false⟩)) :=
  ⟨rfl, rfl, ⟨⟨List.Pairwise.nil, by simp⟩, ⟨List.Pairwise.nil, by simp⟩⟩, by decide,
    allocate_twice_stable .UniqueTags "k" uuidA uuidB [] [] ⟨[], []⟩ rfl rfl
      ⟨⟨List.Pairwise.nil, by simp⟩, ⟨List.Pairwise.nil, by simp⟩⟩ (by decide)⟩

/-- C2 (amended): for a key absent from the decoded registry, allocate
generates a fresh UUID, inserts it into the table selected by the namespace,
encodes the full updated registry, rewrites the store from the start with the
encoded text, and returns that UUID; provided the updated encoding is at least
as long as the prior content (automatic for canonical stores), the store
afterwards decodes to the updated registry, whose table for the namespace maps
the key to the returned UUID — without that proviso stale trailing bytes can
leave the store undecodable (see the counterexample). -/
theorem allocate_miss_persists (ty : UType) (k fresh : String) (bytes : List Nat)
    (contents : List Char) (fs : FileStructure)
    (hread : utf8Decode bytes = some contents) (hdec : decode contents = some fs)
    (hwf : wf fs) (hval : isValidUuid fresh = true)
    (hlook : lookupKey k (fs.table ty) = none)
    (hcov : bytes.length ≤ (utf8Encode (encode (fs.insertNew ty k fresh))).length) :
    get_uuid_from_tag k ty fresh (some bytes)
      = .ok ⟨fresh, utf8Encode (encode (fs.insertNew ty k fresh)), true⟩
    ∧ bytesDecode (utf8Encode (encode (fs.insertNew ty k fresh)))
        = some (fs.insertNew ty k fresh)
    ∧ lookupKey k ((fs.insertNew ty k fresh).table ty) = some fresh := by
  have hwf' := wf_insertNew fs ty k fresh hwf hlook hval
  have hmiss := get_uuid_miss k ty fresh bytes contents fs hread hdec hlook
  have hrw : rewrite_all bytes (utf8Encode (encode (fs.insertNew ty k fresh)))
      = utf8Encode (encode (fs.insertNew ty k fresh)) := by
    unfold rewrite_all
    rw [List.drop_eq_nil_of_le hcov, List.append_nil]
  rw [hrw] at hmiss
  refine ⟨hmiss, ?_, ?_⟩
  · unfold bytesDecode
    rw [utf8Decode_utf8Encode]
    exact decode_encode _ hwf'
  · rw [insertNew_table_same]
    exact lookupKey_append_new k (fs.table ty) fresh hlook

/-- C2 counterexample: against a valid initial store longer than the updated
encoding, the miss path returns the fresh UUID but the store afterwards does
not decode at all, so its table does not map the key to the returned UUID. -/
theorem allocate_miss_persists_cex :
    get_uuid_from_tag "x" .UniqueTags uuidA (some padStore2) = .ok ⟨uuidA, cexFile2, true⟩
    ∧ bytesDecode cexFile2 = none := by
  constructor
  · decide
  · decide

theorem allocate_miss_persists_witness :
    utf8Decode [] = some [] ∧ decode [] = some ⟨[], []⟩ ∧ wf (⟨[], []⟩ : FileStructure)
    ∧ isValidUuid uuidA = true
    ∧ lookupKey "k" ((⟨[], []⟩ : FileStructure).table .UniqueTags) = none
    ∧ List.length ([] : List Nat) ≤ (utf8Encode (encode (FileStructure.insertNew ⟨[], []⟩
        .UniqueTags "k" uuidA))).length
    ∧ (get_uuid_from_tag "k" .UniqueTags uuidA (some ([] : List Nat))
        = .ok ⟨uuidA, utf8Encode (encode (FileStructure.insertNew ⟨[], []⟩
            .UniqueTags "k" uuidA)), true⟩
      ∧ bytesDecode (utf8Encode (encode (FileStructure.insertNew ⟨[], []⟩ .UniqueTags "k" uuidA)))
          = some (FileStructure.insertNew ⟨[], []⟩ .UniqueTags "k" uuidA)
      ∧ lookupKey "k" ((FileStructure.insertNew ⟨[], []⟩ .UniqueTags "k" uuidA).table .UniqueTags)
          = some uuidA) :=
  ⟨rfl, rfl, ⟨⟨List.Pairwise.nil, by simp⟩, ⟨List.Pairwise.nil, by simp⟩⟩, by decide, rfl,
    by simp,
    allocate_miss_persists .UniqueTags "k" uuidA [] [] ⟨[], []⟩ rfl rfl
      ⟨⟨List.Pairwise.nil, by simp⟩, ⟨List.Pairwise.nil, by simp⟩⟩ (by decide) rfl (by simp)⟩

/-- C5: the two namespaces are disjoint in storage — an allocation in the Tag
namespace reads only the tag table and the registry it writes keeps every
entry of the type table, and vice versa; and allocating the same string in the
two namespaces yields independently stored UUIDs that need not be equal. -/
theorem namespace_isolation (k f : String) (bytes : List Nat) (contents : List Char)
    (fs : FileStructure)
    (hread : utf8Decode bytes = some contents) (hdec : decode contents = some fs) :
    (∀ u, lookupKey k fs.unique_tags = some u →
        get_uuid_from_tag k .UniqueTags f (some bytes) = .ok ⟨u, bytes, false⟩)
    ∧ (lookupKey k fs.unique_tags = none →
        get_uuid_from_tag k .UniqueTags f (some bytes)
          = .ok ⟨f, rewrite_all bytes (utf8Encode (encode (fs.insertNew .UniqueTags k f))), true⟩
        ∧ (fs.insertNew .UniqueTags k f).unique_type_tags = fs.unique_type_tags)
    ∧ (∀ u, lookupKey k fs.unique_type_tags = some u →
        get_uuid_from_tag k .UniqueTypeTags f (some bytes) = .ok ⟨u, bytes, false⟩)
    ∧ (lookupKey k fs.unique_type_tags = none →
        get_uuid_from_tag k .UniqueTypeTags f (some bytes)
          = .ok ⟨f, rewrite_all bytes (utf8Encode (encode (fs.insertNew .UniqueTypeTags k f))),
              true⟩
        ∧ (fs.insertNew .UniqueTypeTags k f).unique_tags = fs.unique_tags)
    ∧ (get_uuid_from_tag "X" .UniqueTags uuidA (some isoStore) = .ok ⟨uuidA, isoStore, false⟩
      ∧ get_uuid_from_tag "X" .UniqueTypeTags uuidA (some isoStore) = .ok ⟨uuidB, isoStore, false⟩
      ∧ uuidA ≠ uuidB) := by
  refine ⟨fun u hu => get_uuid_hit k .UniqueTags f bytes contents fs u hread hdec hu,
    fun hn => ⟨get_uuid_miss k .UniqueTags f bytes contents fs hread hdec hn, rfl⟩,
    fun u hu => get_uuid_hit k .UniqueTypeTags f bytes contents fs u hread hdec hu,
    fun hn => ⟨get_uuid_miss k .UniqueTypeTags f bytes contents fs hread hdec hn, rfl⟩,
    by decide, by decide, by decide⟩

theorem namespace_isolation_witness :
    utf8Decode [] = some [] ∧ decode [] = some ⟨[], []⟩
    ∧ ((∀ u, lookupKey "X" (⟨[], []⟩ : FileStructure).unique_tags = some u →
        get_uuid_from_tag "X" .UniqueTags uuidA (some ([] : List Nat)) = .ok ⟨u, [], false⟩)
      ∧ (lookupKey "X" (⟨[], []⟩ : FileStructure).unique_tags = none →
          get_uuid_from_tag "X" .UniqueTags uuidA (some ([] : List Nat))
            = .ok ⟨uuidA, rewrite_all ([] : List Nat)
                (utf8Encode (encode (FileStructure.insertNew ⟨[], []⟩ .UniqueTags "X" uuidA))),
                true⟩
          ∧ (FileStructure.insertNew ⟨[], []⟩ .UniqueTags "X" uuidA).unique_type_tags
              = (⟨[], []⟩ : FileStructure).unique_type_tags)
      ∧ (∀ u, lookupKey "X" (⟨[], []⟩ : FileStructure).unique_type_tags = some u →
          get_uuid_from_tag "X" .UniqueTypeTags uuidA (some ([] : List Nat))
            = .ok ⟨u, [], false⟩)
      ∧ (lookupKey "X" (⟨[], []⟩ : FileStructure).unique_type_tags = none →
          get_uuid_from_tag "X" .UniqueTypeTags uuidA (some ([] : List Nat))
            = .ok ⟨uuidA, rewrite_all ([] : List Nat)
                (utf8Encode (encode (FileStructure.insertNew ⟨[], []⟩
                  .UniqueTypeTags "X" uuidA))), true⟩
          ∧ (FileStructure.insertNew ⟨[], []⟩ .UniqueTypeTags "X" uuidA).unique_tags
              = (⟨[], []⟩ : FileStructure).unique_tags)
      ∧ (get_uuid_from_tag "X" .UniqueTags uuidA (some isoStore) = .ok ⟨uuidA, isoStore, false⟩
        ∧ get_uuid_from_tag "X" .UniqueTypeTags uuidA (some isoStore)
            = .ok ⟨uuidB, isoStore, false⟩
        ∧ uuidA ≠ uuidB)) :=
  ⟨rfl, rfl, namespace_isolation "X" uuidA [] [] ⟨[], []⟩ rfl rfl⟩

/-- C7: write-once — a hit leaves the store byte-identical, and on a miss the
rewritten encoding is that of a registry containing every previously decoded
entry of both namespaces plus exactly the one new entry; no existing entry is
altered or removed. -/
theorem write_once (ty : UType) (k fresh : String) (bytes : List Nat) (contents : List Char)
    (fs : FileStructure)
    (hread : utf8Decode bytes = some contents) (hdec : decode contents = some fs) :
    (∀ u, lookupKey k (fs.table ty) = some u →
        get_uuid_from_tag k ty fresh (some bytes) = .ok ⟨u, bytes, false⟩)
    ∧ (lookupKey k (fs.table ty) = none →
        get_uuid_from_tag k ty fresh (some bytes)
          = .ok ⟨fresh, rewrite_all bytes (utf8Encode (encode (fs.insertNew ty k fresh))), true⟩
        ∧ (fs.insertNew ty k fresh).table ty = fs.table ty ++ [(k, fresh)]
        ∧ (∀ ty2, ty2 ≠ ty → (fs.insertNew ty k fresh).table ty2 = fs.table ty2)
        ∧ (∀ ty2 k2 u2, lookupKey k2 (fs.table ty2) = some u2 →
            lookupKey k2 ((fs.insertNew ty k fresh).table ty2) = some u2)
        ∧ lookupKey k ((fs.insertNew ty k fresh).table ty) = some fresh) := by
  have hframe : ∀ ty2, ty2 ≠ ty → (fs.insertNew ty k fresh).table ty2 = fs.table ty2 := by
    intro ty2 hne
    cases ty <;> cases ty2 <;> first | rfl | exact absurd rfl hne
  constructor
  · intro u hu
    exact get_uuid_hit k ty fresh bytes contents fs u hread hdec hu
  · intro hn
    refine ⟨get_uuid_miss k ty fresh bytes contents fs hread hdec hn,
      insertNew_table_same fs ty k fresh, hframe, ?_, ?_⟩
    · intro ty2 k2 u2 hu2
      by_cases hty : ty2 = ty
      · subst hty
        rw [insertNew_table_same]
        exact lookupKey_append_old k2 (fs.table ty2) [(k, fresh)] u2 hu2
      · rw [hframe ty2 hty]
        exact hu2
    · rw [insertNew_table_same]
      exact lookupKey_append_new k (fs.table ty) fresh hn

theorem write_once_witness :
    utf8Decode [] = some [] ∧ decode [] = some ⟨[], []⟩
    ∧ ((∀ u, lookupKey "k" ((⟨[], []⟩ : FileStructure).table .UniqueTags) = some u →
        get_uuid_from_tag "k" .UniqueTags uuidA (some ([] : List Nat)) = .ok ⟨u, [], false⟩)
      ∧ (lookupKey "k" ((⟨[], []⟩ : FileStructure).table .UniqueTags) = none →
          get_uuid_from_tag "k" .UniqueTags uuidA (some ([] : List Nat))
            = .ok ⟨uuidA, rewrite_all ([] : List Nat)
                (utf8Encode (encode (FileStructure.insertNew ⟨[], []⟩ .UniqueTags "k" uuidA))),
                true⟩
          ∧ (FileStructure.insertNew ⟨[], []⟩ .UniqueTags "k" uuidA).table .UniqueTags
              = (⟨[], []⟩ : FileStructure).table .UniqueTags ++ [("k", uuidA)]
          ∧ (∀ ty2, ty2 ≠ .UniqueTags →
              (FileStructure.insertNew ⟨[], []⟩ .UniqueTags "k" uuidA).table ty2
                = (⟨[], []⟩ : FileStructure).table ty2)
          ∧ (∀ ty2 k2 u2, lookupKey k2 ((⟨[], []⟩ : FileStructure).table ty2) = some u2 →
              lookupKey k2 ((FileStructure.insertNew ⟨[], []⟩ .UniqueTags "k" uuidA).table ty2)
                = some u2)
          ∧ lookupKey "k" ((FileStructure.insertNew ⟨[], []⟩
              .UniqueTags "k" uuidA).table .UniqueTags) = some uuidA)) :=
  ⟨rfl, rfl, write_once .UniqueTags "k" uuidA [] [] ⟨[], []⟩ rfl rfl⟩

/-- C9 (amended): encode is deterministic as a function of the in-memory
registry representation (equal tables as sequences give equal text), but it is
not a function of the registry contents as a key-value map: two registries
whose tables are permutations of each other — equal as `HashMap`s — can encode
to different texts, so byte-for-byte reproducibility across runs is not
guaranteed. -/
theorem encode_deterministic_amended :
    (∀ fs1 fs2 : FileStructure, fs1.unique_tags = fs2.unique_tags →
        fs1.unique_type_tags = fs2.unique_type_tags → encode fs1 = encode fs2)
    ∧ ∃ fs1 fs2 : FileStructure,
        fs1.unique_tags.Perm fs2.unique_tags ∧ fs1.unique_type_tags.Perm fs2.unique_type_tags
          ∧ encode fs1 ≠ encode fs2 := by
  constructor
  · intro fs1 fs2 h1 h2
    obtain ⟨t1, y1⟩ := fs1
    obtain ⟨t2, y2⟩ := fs2
    simp only [] at h1 h2
    rw [h1, h2]
  · exact ⟨fsP, fsQ, by decide, by decide, by decide⟩

/-- C9 counterexample: `fsP` and `fsQ` hold the same key-UUID bindings (their
tables are permutations, i.e. they are equal as `HashMap`s), yet their
encodings differ, so encode is not a function of the registry contents
alone. -/
theorem encode_deterministic_cex :
    fsP.unique_tags.Perm fsQ.unique_tags ∧ fsP.unique_type_tags.Perm fsQ.unique_type_tags
    ∧ encode fsP ≠ encode fsQ := by
  refine ⟨by decide, by decide, by decide⟩

theorem encode_deterministic_amended_witness :
    fsP.unique_tags = fsP.unique_tags ∧ encode fsP = encode fsP :=
  ⟨rfl, encode_deterministic_amended.1 fsP fsP rfl rfl⟩

theorem typeKey_prefixed_witness :
    typeKey "Foo" = "::" ++ "Foo" ∧ typeKey "Foo" ≠ "Foo" :=
  typeKey_prefixed "Foo"
